import Mathlib

/-!
# Verification of the hypercore-protocol core against its specification

Shallow embedding of the two source files `src/noise.rs` and `src/protocol.rs`
of the repository, together with models (marked `Modelled from the spec:`) of
the crate modules that `protocol.rs` references but that are not part of the
source tree (`crate::channels`, `crate::handshake`, `crate::message`,
`crate::schema`, `crate::wire_message`, `crate::util`, `crate::constants`,
`crate::encrypt`) and of the external `varinteger` crate.

Byte strings are lists of naturals.  The `u64` arithmetic of the varint loop
is modelled exactly on `Nat`: every input considered by the claims keeps all
intermediate values far below `2 ^ 64`, where the Rust arithmetic is exact.
-/

namespace Hypercore

/-- Byte strings are lists of naturals (each entry a byte value where it matters). -/
abbrev Bytes := List Nat

/-- Error kinds used by the embedded code (the `std::io::ErrorKind` values the
source constructs, plus end-of-input for a failing `read_exact`). -/
inductive ProtoError where
  | eof
  | messageTooLong
  | decodeError
  | permissionDenied
  | brokenPipe
  | handshakeError
  deriving DecidableEq, Repr

/-- `MAX_MESSAGE_SIZE` (src/noise.rs line 19). -/
def MAX_MESSAGE_SIZE : Nat := 65535

/-- The varint-reading loop of `recv` (src/noise.rs lines 174-194), taking the
input stream at the front of the list, the accumulated `varint` and the current
`factor`.  A zero byte is skipped (keepalive ping).  Exactly as in the source,
after a byte's low seven bits are added the loop first breaks when the
continuation bit is clear and only afterwards compares against
`MAX_MESSAGE_SIZE`. -/
def readVarint : Bytes → Nat → Nat → Except ProtoError (Nat × Bytes)
  | [], _, _ => .error .eof
  | byte :: rest, varint, factor =>
    if byte = 0 then readVarint rest varint factor
    else if byte < 128 then .ok (varint + byte % 128 * factor, rest)
    else if varint + byte % 128 * factor > MAX_MESSAGE_SIZE then .error .messageTooLong
    else readVarint rest (varint + byte % 128 * factor) (factor * 128)

/-- `recv` (src/noise.rs lines 170-203): read a varint length, then exactly that
many payload bytes.  Returns the payload and the unread remainder of the
input. -/
def recv (input : Bytes) : Except ProtoError (Bytes × Bytes) :=
  match readVarint input 0 1 with
  | .error e => .error e
  | .ok (len, rest) =>
    if rest.length < len then .error .eof
    else .ok (rest.take len, rest.drop len)

/-- LEB128 varint encoding: the behaviour of the external `varinteger` crate
used by `with_delimiter` (src/noise.rs lines 205-212) and `send_prefixed`
(src/protocol.rs lines 449-458). -/
def encodeVarint (n : Nat) : Bytes :=
  if h : n < 128 then [n]
  else (n % 128 + 128) :: encodeVarint (n / 128)
decreasing_by exact Nat.div_lt_self (by omega) (by omega)

/-- `with_delimiter` (src/noise.rs lines 205-212): the varint length prefix
followed by the data. -/
def with_delimiter (data : Bytes) : Bytes := encodeVarint data.length ++ data

/-- Running `recv` a fixed number of times, collecting the received frames. -/
def recvN : Nat → Bytes → Except ProtoError (List Bytes × Bytes)
  | 0, input => .ok ([], input)
  | n + 1, input =>
    match recv input with
    | .error e => .error e
    | .ok (m, rest) =>
      match recvN n rest with
      | .error e => .error e
      | .ok (ms, rest2) => .ok (m :: ms, rest2)

/-- A frame stream with keepalive zero bytes interleaved: each payload is
preceded by some number of zero bytes and framed by `with_delimiter`. -/
def interleaved : List (Nat × Bytes) → Bytes
  | [] => []
  | (z, b) :: rest => List.replicate z 0 ++ (with_delimiter b ++ interleaved rest)

/-! ## Framer lemmas -/

theorem encodeVarint_lt (n : Nat) (h : n < 128) : encodeVarint n = [n] := by
  rw [encodeVarint.eq_def, dif_pos h]

theorem encodeVarint_ge (n : Nat) (h : 128 ≤ n) :
    encodeVarint n = (n % 128 + 128) :: encodeVarint (n / 128) := by
  rw [encodeVarint.eq_def, dif_neg (by omega)]

theorem readVarint_zero (rest : Bytes) (v f : Nat) :
    readVarint (0 :: rest) v f = readVarint rest v f := by
  simp [readVarint]

theorem readVarint_low (b : Nat) (rest : Bytes) (v f : Nat) (h0 : b ≠ 0) (h1 : b < 128) :
    readVarint (b :: rest) v f = .ok (v + b % 128 * f, rest) := by
  simp only [readVarint]
  rw [if_neg h0, if_pos h1]

theorem readVarint_high (b : Nat) (rest : Bytes) (v f : Nat) (h1 : 128 ≤ b)
    (h2 : v + b % 128 * f ≤ MAX_MESSAGE_SIZE) :
    readVarint (b :: rest) v f = readVarint rest (v + b % 128 * f) (f * 128) := by
  simp only [readVarint]
  rw [if_neg (by omega), if_neg (by omega), if_neg (by omega)]

theorem readVarint_skip_zeros (z : Nat) (input : Bytes) (v f : Nat) :
    readVarint (List.replicate z 0 ++ input) v f = readVarint input v f := by
  induction z with
  | zero => rfl
  | succ n ih => simpa [List.replicate_succ, readVarint_zero] using ih

theorem recv_skip_zeros (z : Nat) (input : Bytes) :
    recv (List.replicate z 0 ++ input) = recv input := by
  unfold recv
  rw [readVarint_skip_zeros]

/-- Decoding an encoded length in the claim-relevant range `1 ≤ n ≤ 65535`
succeeds and consumes exactly the encoding. -/
theorem readVarint_encodeVarint (n : Nat) (rest : Bytes) (h1 : 1 ≤ n)
    (h2 : n ≤ MAX_MESSAGE_SIZE) :
    readVarint (encodeVarint n ++ rest) 0 1 = .ok (n, rest) := by
  have hM : MAX_MESSAGE_SIZE = 65535 := rfl
  rcases Nat.lt_or_ge n 128 with hA | hA
  · rw [encodeVarint_lt n hA]
    rw [List.cons_append, List.nil_append,
      readVarint_low n rest 0 1 (by omega) hA]
    have : 0 + n % 128 * 1 = n := by omega
    rw [this]
  · rcases Nat.lt_or_ge n 16384 with hB | hB
    · have d1 : 1 ≤ n / 128 := by omega
      have d2 : n / 128 < 128 := by omega
      rw [encodeVarint_ge n hA, encodeVarint_lt _ d2]
      rw [List.cons_append, List.cons_append, List.nil_append]
      rw [readVarint_high _ _ 0 1 (by omega) (by omega)]
      rw [readVarint_low _ _ _ _ (by omega) d2]
      have : 0 + (n % 128 + 128) % 128 * 1 + n / 128 % 128 * (1 * 128) = n := by omega
      rw [this]
    · have dd : n / 128 / 128 = n / 16384 := by
        rw [Nat.div_div_eq_div_mul]
      have d1 : 128 ≤ n / 128 := by omega
      have d2 : n / 128 / 128 < 128 := by omega
      have d3 : 1 ≤ n / 128 / 128 := by omega
      rw [encodeVarint_ge n hA, encodeVarint_ge _ d1, encodeVarint_lt _ d2]
      rw [List.cons_append, List.cons_append, List.cons_append, List.nil_append]
      rw [readVarint_high _ _ 0 1 (by omega) (by omega)]
      rw [readVarint_high _ _ _ _ (by omega) (by omega)]
      rw [readVarint_low _ _ _ _ (by omega) d2]
      have : 0 + (n % 128 + 128) % 128 * 1 + (n / 128 % 128 + 128) % 128 * (1 * 128)
          + n / 128 / 128 % 128 * (1 * 128 * 128) = n := by omega
      rw [this]

/-- A nonempty frame of at most `MAX_MESSAGE_SIZE` payload bytes round-trips
through `with_delimiter` and `recv`, leaving the rest of the stream intact. -/
theorem recv_with_delimiter (b rest : Bytes) (h1 : 1 ≤ b.length)
    (h2 : b.length ≤ MAX_MESSAGE_SIZE) :
    recv (with_delimiter b ++ rest) = .ok (b, rest) := by
  unfold recv with_delimiter
  rw [List.append_assoc, readVarint_encodeVarint _ _ h1 h2]
  dsimp only
  rw [if_neg (by simp), List.take_left, List.drop_left]

/-! ## Wire codec and message model

`crate::wire_message`, `crate::message` and the protobuf `crate::schema` are
referenced by src/protocol.rs but are not part of the source tree; they are
modelled from the spec (§4.4, §6). -/

/-- Modelled from the spec: plain LEB128 decoding as used by the wire codec
(`crate::wire_message` is not under src/); no keepalive skipping and no size
limit at this layer. -/
def decodeVarint : Bytes → Nat → Nat → Option (Nat × Bytes)
  | [], _, _ => none
  | b :: rest, acc, factor =>
    if b < 128 then some (acc + b % 128 * factor, rest)
    else decodeVarint rest (acc + b % 128 * factor) (factor * 128)

/-- `Open` message (spec §6: `Open { 1: bytes discovery_key; 2: optional bytes capability }`). -/
structure Open where
  discovery_key : Bytes
  capability : Option Bytes
  deriving DecidableEq, Repr

/-- `Close` message (spec §6: `Close { 1: optional bytes discovery_key }`). -/
structure Close where
  discovery_key : Option Bytes
  deriving DecidableEq, Repr

/-- Modelled from the spec: the protobuf body codec for `Open` is external
(`crate::schema`); it is represented by a simple invertible length-prefixed
serialization, which no claim inspects beyond decodability. -/
def decodeOpen : Bytes → Option Open
  | [] => none
  | len :: rest =>
    if len ≤ rest.length then
      match rest.drop len with
      | [] => some ⟨rest.take len, none⟩
      | 1 :: cap => some ⟨rest.take len, some cap⟩
      | _ => none
    else none

/-- Modelled from the spec: serialization matching `decodeOpen`. -/
def encodeOpen (m : Open) : Bytes :=
  m.discovery_key.length :: (m.discovery_key ++ (match m.capability with
    | none => []
    | some c => 1 :: c))

/-- Modelled from the spec: the protobuf body codec for `Close`. -/
def decodeClose : Bytes → Option Close
  | [] => some ⟨none⟩
  | 1 :: dk => some ⟨some dk⟩
  | _ => none

/-- Modelled from the spec: serialization matching `decodeClose`. -/
def encodeClose (m : Close) : Bytes :=
  match m.discovery_key with
  | none => []
  | some dk => 1 :: dk

/-- Modelled from the spec (§4.4 table): the message sum of `crate::message`.
Type tags: 0 = Open, 1 = Close, 15 = Extension, other tags are application
messages forwarded verbatim. -/
inductive Message where
  | openMsg (m : Open)
  | closeMsg (m : Close)
  | extensionMsg (body : Bytes)
  | appMsg (typ : Nat) (body : Bytes)
  deriving DecidableEq, Repr

/-- The 4-bit type tag of a message (spec §4.4). -/
def Message.typ : Message → Nat
  | .openMsg _ => 0
  | .closeMsg _ => 1
  | .extensionMsg _ => 15
  | .appMsg t _ => t

/-- The encoded body of a message. -/
def Message.body : Message → Bytes
  | .openMsg m => encodeOpen m
  | .closeMsg m => encodeClose m
  | .extensionMsg b => b
  | .appMsg _ b => b

/-- Modelled from the spec (§4.4): `Message::decode` of `crate::message`,
dispatching on the type tag. -/
def Message.decode (typ : Nat) (body : Bytes) : Except ProtoError Message :=
  if typ = 0 then
    match decodeOpen body with
    | some m => .ok (.openMsg m)
    | none => .error .decodeError
  else if typ = 1 then
    match decodeClose body with
    | some m => .ok (.closeMsg m)
    | none => .error .decodeError
  else if typ = 15 then .ok (.extensionMsg body)
  else .ok (.appMsg typ body)

/-- The two-level envelope `(channel, type, payload)` of the wire codec. -/
structure WireMessage where
  channel : Nat
  typ : Nat
  message : Bytes
  deriving DecidableEq, Repr

/-- Modelled from the spec (§4.4): `WireMessage::from_buf` decodes the header
varint `channel << 4 | type` and keeps the remaining bytes as the body. -/
def WireMessage.from_buf (buf : Bytes) : Except ProtoError WireMessage :=
  match decodeVarint buf 0 1 with
  | none => .error .decodeError
  | some (h, rest) => .ok ⟨h / 16, h % 16, rest⟩

/-- Modelled from the spec (§4.4): encoding a message on channel `ch`;
encoders reject a type that does not fit in 4 bits. -/
def Message.encodeWire (m : Message) (ch : Nat) : Except ProtoError Bytes :=
  if m.typ < 16 then .ok (encodeVarint (ch * 16 + m.typ) ++ m.body)
  else .error .decodeError

/-! ## Channelizer

`crate::channels::Channelizer` is referenced by src/protocol.rs but is not
part of the source tree; it is modelled from the spec (§3, §4.5). -/

/-- Channel record held by the Channelizer, keyed by discovery key (spec §3). -/
structure ChannelRecord where
  key : Option Bytes
  local_id : Option Nat
  remote_id : Option Nat
  remote_capability : Option Bytes
  inbound : Option (List Message)
  deriving DecidableEq, Repr

/-- Modelled from the spec (§4.5): bidirectional channel table. `inbound`
models the installed inbound queue sender together with the queue contents;
`next_local` realises the monotonically increasing local id assignment. -/
structure Channelizer where
  table : List (Bytes × ChannelRecord)
  next_local : Nat
  deriving DecidableEq, Repr

def Channelizer.new : Channelizer := ⟨[], 0⟩

/-- Association-list lookup by discovery key. -/
def lookupRec : List (Bytes × ChannelRecord) → Bytes → Option ChannelRecord
  | [], _ => none
  | (k, r) :: rest, dk => if k = dk then some r else lookupRec rest dk

/-- Drop every entry at a discovery key. -/
def removeKey : List (Bytes × ChannelRecord) → Bytes → List (Bytes × ChannelRecord)
  | [], _ => []
  | (k, r) :: rest, dk =>
    if k = dk then removeKey rest dk else (k, r) :: removeKey rest dk

/-- Lookup by discovery key. -/
def Channelizer.get (c : Channelizer) (dk : Bytes) : Option ChannelRecord :=
  lookupRec c.table dk

/-- Insert or replace the record at a discovery key (at most one record per
discovery key, spec §3 invariant 1). -/
def Channelizer.put (c : Channelizer) (dk : Bytes) (r : ChannelRecord) : Channelizer :=
  { c with table := (dk, r) :: removeKey c.table dk }

/-- Modelled from the spec: deterministic derivation of the discovery key from
a key (`crate::util::discovery_key` is not under src/).  The claims use only
that it is a fixed function; the concrete 32-byte hash is represented by an
arbitrary executable stand-in. -/
def discovery_key (key : Bytes) : Bytes := key.map (fun b => (b + 1) % 256)

/-- Modelled from the spec (§4.5): `attach_local` creates or updates the
record for `discovery_key key`, assigning the next local id; idempotent on the
same key. -/
def Channelizer.attach_local (c : Channelizer) (key : Bytes) : Nat × Channelizer :=
  let dk := discovery_key key
  match c.get dk with
  | some r =>
    match r.local_id with
    | some id => (id, c.put dk { r with key := some key })
    | none =>
      (c.next_local,
        { c.put dk { r with key := some key, local_id := some c.next_local } with
          next_local := c.next_local + 1 })
  | none =>
    (c.next_local,
      { c.put dk ⟨some key, some c.next_local, none, none, none⟩ with
        next_local := c.next_local + 1 })

/-- Modelled from the spec (§4.5): `attach_remote` creates or updates the
record with the remote id and capability bytes. -/
def Channelizer.attach_remote (c : Channelizer) (dk : Bytes) (remote_id : Nat)
    (capability : Option Bytes) : Channelizer :=
  match c.get dk with
  | some r => c.put dk { r with remote_id := some remote_id, remote_capability := capability }
  | none => c.put dk ⟨none, none, some remote_id, capability, none⟩

/-- `get_key` as used by `on_open` (src/protocol.rs line 421). -/
def Channelizer.get_key (c : Channelizer) (dk : Bytes) : Option Bytes :=
  match c.get dk with
  | some r => r.key
  | none => none

/-- Association-list lookup by remote id. -/
def findRemote : List (Bytes × ChannelRecord) → Nat → Option (Bytes × ChannelRecord)
  | [], _ => none
  | (k, r) :: rest, rid =>
    if r.remote_id = some rid then some (k, r) else findRemote rest rid

/-- Lookup by remote id, returning the discovery key and record
(spec §4.5 `get_by_remote`). -/
def Channelizer.get_remote (c : Channelizer) (rid : Nat) : Option (Bytes × ChannelRecord) :=
  findRemote c.table rid

/-- Modelled from the spec (§4.5): `open(dkey, inbound_tx)` installs the
inbound sender. -/
def Channelizer.openInbound (c : Channelizer) (dk : Bytes) : Channelizer :=
  match c.get dk with
  | some r => c.put dk { r with inbound := some [] }
  | none => c

/-- Modelled from the spec (§4.5): `forward(remote_id, message)` pushes onto
the inbound queue and fails with BrokenPipe if no sender is installed. -/
def Channelizer.forward (c : Channelizer) (rid : Nat) (msg : Message) :
    Except ProtoError Channelizer :=
  match c.get_remote rid with
  | some (dk, r) =>
    match r.inbound with
    | some q => .ok (c.put dk { r with inbound := some (q ++ [msg]) })
    | none => .error .brokenPipe
  | none => .error .brokenPipe

/-- Modelled from the spec (§4.5): remove the record at a discovery key. -/
def Channelizer.remove (c : Channelizer) (dk : Bytes) : Channelizer :=
  { c with table := removeKey c.table dk }

/-- Whether the remote has announced this discovery key: the record exists and
carries a remote id. -/
def remoteAnnounced (c : Channelizer) (dk : Bytes) : Bool :=
  match c.get dk with
  | some r => r.remote_id.isSome
  | none => false

/-! ## Handshake model

`crate::handshake` is referenced by src/protocol.rs but is not part of the
source tree; its driver is modelled from the spec (§4.2). -/

/-- Modelled from the spec (§4.6): `capability(key) = MAC(handshake_hash, key)`
for a fixed implementation-defined MAC; represented by an arbitrary executable
injective pairing, which no claim inspects further. -/
def mac (hash key : Bytes) : Bytes := hash.length :: (hash ++ key)

/-- Result of a completed handshake (spec §3, restricted to the fields
src/protocol.rs uses). -/
structure HandshakeResult where
  remote_pubkey : Bytes
  handshake_hash : Bytes
  deriving DecidableEq, Repr

/-- Modelled from the spec (§4.6): both sides compute `MAC(handshake_hash, key)`. -/
def HandshakeResult.capability (r : HandshakeResult) (key : Bytes) : Option Bytes :=
  some (mac r.handshake_hash key)

/-- Modelled from the spec (§4.6, §7): recompute locally and reject a mismatch
or a missing capability with PermissionDenied. -/
def HandshakeResult.verify_remote_capability (r : HandshakeResult)
    (capability : Option Bytes) (key : Bytes) : Except ProtoError Unit :=
  match capability with
  | some c => if c = mac r.handshake_hash key then .ok () else .error .permissionDenied
  | none => .error .permissionDenied

/-- Modelled from the spec (§4.2): the three-flight Noise XX driver of
`crate::handshake`.  Only its control flow is represented (who sends which
flight and when each side completes); the Noise byte strings are fixed
placeholders. -/
structure Handshake where
  is_initiator : Bool
  flights_read : Nat
  finished : Bool
  deriving DecidableEq, Repr

/-- Placeholder bytes of handshake flight `k`. -/
def flightBytes (k : Nat) : Bytes := [200 + k]

def Handshake.new (is_initiator : Bool) : Handshake := ⟨is_initiator, 0, false⟩

/-- Modelled from the spec (§4.2): `start` produces the first flight on the
initiator only. -/
def Handshake.start (h : Handshake) : Option Bytes :=
  if h.is_initiator then some (flightBytes 1) else none

/-- Modelled from the spec (§4.2): reading one inbound handshake message,
possibly producing a response flight. -/
def Handshake.read (h : Handshake) (_buf : Bytes) :
    Except ProtoError (Option Bytes × Handshake) :=
  if h.is_initiator then
    match h.flights_read with
    | 0 => .ok (some (flightBytes 3), { h with flights_read := 1, finished := true })
    | _ => .error .handshakeError
  else
    match h.flights_read with
    | 0 => .ok (some (flightBytes 2), { h with flights_read := 1 })
    | 1 => .ok (none, { h with flights_read := 2, finished := true })
    | _ => .error .handshakeError

def Handshake.complete (h : Handshake) : Bool := h.finished

/-- Modelled from the spec (§4.2): finalizing yields the remote static key and
the handshake hash (placeholder bytes). -/
def Handshake.into_result (h : Handshake) : Except ProtoError HandshakeResult :=
  if h.finished then .ok ⟨if h.is_initiator then [82] else [81], [90]⟩
  else .error .handshakeError

/-! ## Protocol engine (src/protocol.rs) -/

/-- `ProtocolOptions` (src/protocol.rs lines 82-87). -/
structure ProtocolOptions where
  is_initiator : Bool
  noise : Bool
  encrypted : Bool
  deriving DecidableEq, Repr

/-- Protocol state (src/protocol.rs lines 150-156).  As in the source, the
`Handshake` constructor holds an `Option` only so the driver can be taken out
while a message is processed. -/
inductive State where
  | NotInitialized
  | Handshake (h : Option Handshake)
  | Established
  deriving DecidableEq, Repr

/-- User-facing channel handle (src/protocol.rs lines 45-49); the bounded
queues live in the Channelizer model, so only the discovery key remains. -/
structure Channel where
  discovery_key : Bytes
  deriving DecidableEq, Repr

/-- `Event` (src/protocol.rs lines 26-30). -/
inductive Event where
  | handshake (remote_key : Bytes)
  | discoveryKey (dk : Bytes)
  | channel (ch : Channel)
  deriving DecidableEq, Repr

/-- Modelled from the spec (§6 constants): `DEFAULT_KEEPALIVE` = 25 seconds
(`crate::constants` is not under src/). -/
def DEFAULT_KEEPALIVE : Nat := 25

/-- The `Protocol` struct (src/protocol.rs lines 171-189).  The transport
writer is modelled by the list `sent` of bytes handed to it (the
`crate::encrypt` cipher wrapper is not under src/ and no claim concerns
ciphertext, so it is a pass-through); `keepalive` is the armed timer;
`outboundIds` records the per-channel outbound streams pushed into the
`SelectAll`. -/
structure Protocol where
  options : ProtocolOptions
  state : State
  handshake : Option HandshakeResult
  channels : Channelizer
  error : Option ProtoError
  messages : List (Nat × Message)
  events : List Event
  keepalive : Option Nat
  sent : Bytes
  outboundIds : List Nat
  deriving DecidableEq, Repr

/-- `Protocol::new` (src/protocol.rs lines 197-217). -/
def Protocol.new (options : ProtocolOptions) : Protocol :=
  ⟨options, .NotInitialized, none, Channelizer.new, none, [], [], none, [], []⟩

/-- `reset_keepalive` (src/protocol.rs lines 242-245). -/
def Protocol.reset_keepalive (p : Protocol) : Protocol :=
  { p with keepalive := some DEFAULT_KEEPALIVE }

/-- `send_raw` (src/protocol.rs lines 444-447). -/
def Protocol.send_raw (p : Protocol) (buf : Bytes) : Protocol :=
  { p with sent := p.sent ++ buf }

/-- `send_prefixed` (src/protocol.rs lines 449-458). -/
def Protocol.send_prefixed (p : Protocol) (buf : Bytes) : Protocol :=
  { p with sent := p.sent ++ (encodeVarint buf.length ++ buf) }

/-- `ping` (src/protocol.rs lines 467-470): a single zero byte. -/
def Protocol.ping (p : Protocol) : Protocol := p.send_raw [0]

/-- `destroy` (src/protocol.rs lines 309-312): stores the error in the
`error` field (and does nothing else). -/
def Protocol.destroy (p : Protocol) (e : ProtoError) : Protocol :=
  { p with error := some e }

/-- `remote_key` (src/protocol.rs lines 302-307). -/
def Protocol.remote_key (p : Protocol) : Option Bytes :=
  match p.handshake with
  | none => none
  | some h => some h.remote_pubkey

/-- `capability` (src/protocol.rs lines 472-477). -/
def Protocol.capability (p : Protocol) (key : Bytes) : Option Bytes :=
  match p.handshake with
  | some h => h.capability key
  | none => none

/-- `verify_remote_capability` (src/protocol.rs lines 479-487): with no
handshake state it returns the PermissionDenied error "Missing handshake
state for capability verification". -/
def Protocol.verify_remote_capability (p : Protocol) (capability : Option Bytes)
    (key : Bytes) : Except ProtoError Unit :=
  match p.handshake with
  | some h => h.verify_remote_capability capability key
  | none => .error .permissionDenied

/-- `init` (src/protocol.rs lines 219-240): in any state other than
NotInitialized it returns immediately; otherwise it builds the handshake
(sending its first flight if any) or goes directly to Established, and arms
the keepalive timer. -/
def Protocol.init (p : Protocol) : Except ProtoError Protocol :=
  match p.state with
  | .NotInitialized =>
    if p.options.noise then
      let h := Handshake.new p.options.is_initiator
      let p1 := match h.start with
        | some buf => p.send_prefixed buf
        | none => p
      .ok ({ p1 with state := .Handshake (some h) }).reset_keepalive
    else
      .ok ({ p with state := .Established }).reset_keepalive
  | _ => .ok p

/-- `create_channel` (src/protocol.rs lines 390-402): registers the
per-channel outbound stream and installs the inbound sender. -/
def Protocol.create_channel (p : Protocol) (id : Nat) (dk : Bytes) : Channel × Protocol :=
  ({ discovery_key := dk },
    { p with
      outboundIds := p.outboundIds ++ [id]
      channels := p.channels.openInbound dk })

/-- `open` (src/protocol.rs lines 369-388). -/
def Protocol.openChannel (p : Protocol) (key : Bytes) : Except ProtoError Protocol :=
  let dk := discovery_key key
  let al := p.channels.attach_local key
  let id := al.1
  let q : Protocol := { p with channels := al.2 }
  match q.channels.get dk with
  | some record =>
    match record.remote_id with
    | some _ =>
      match q.verify_remote_capability record.remote_capability key with
      | .error e => .error e
      | .ok _ =>
        let cp := q.create_channel id dk
        let q2 := { cp.2 with events := cp.2.events ++ [Event.channel cp.1] }
        .ok { q2 with messages :=
          q2.messages ++ [(id, Message.openMsg ⟨dk, q2.capability key⟩)] }
    | none =>
      .ok { q with messages :=
        q.messages ++ [(id, Message.openMsg ⟨dk, q.capability key⟩)] }
  | none =>
    .ok { q with messages :=
      q.messages ++ [(id, Message.openMsg ⟨dk, q.capability key⟩)] }

/-- `on_close` (src/protocol.rs lines 404-413). -/
def Protocol.on_close (p : Protocol) (ch : Nat) (msg : Close) : Protocol :=
  match msg.discovery_key with
  | some dk => { p with channels := p.channels.remove dk }
  | none =>
    match p.channels.get_remote ch with
    | some (dk, _) => { p with channels := p.channels.remove dk }
    | none => p

/-- Outcome of the message-processing functions.  The source's panics are
distinguished: `panicNotInit` is the `on_message` wildcard panic "cannot
receive messages before starting the protocol" (src/protocol.rs line 322),
`panicUnimpl` the `unimplemented!()` of the Extension arm (line 361), and
`panicOther` any `unwrap` on an empty Option. -/
inductive Out (α : Type) where
  | ok (a : α)
  | fatal (e : ProtoError)
  | panicNotInit
  | panicUnimpl
  | panicOther
  deriving DecidableEq, Repr

/-- `on_open` (src/protocol.rs lines 415-442). -/
def Protocol.on_open (p : Protocol) (ch : Nat) (msg : Open) :
    Out (Option Event × Protocol) :=
  let dk := msg.discovery_key
  let key? := p.channels.get_key dk
  let q : Protocol := { p with channels := p.channels.attach_remote dk ch msg.capability }
  match key? with
  | none => .ok (some (Event.discoveryKey dk), q)
  | some key =>
    match q.channels.get dk with
    | some record =>
      match record.local_id with
      | none => .panicOther
      | some local_id =>
        match q.verify_remote_capability msg.capability key with
        | .error e => .fatal e
        | .ok _ =>
          let cp := q.create_channel local_id dk
          match cp.2.channels.forward ch (Message.openMsg msg) with
          | .error e => .fatal e
          | .ok c2 => .ok (some (Event.channel cp.1), { cp.2 with channels := c2 })
    | none => .ok (none, q)

/-- `on_proto_message` (src/protocol.rs lines 350-367).  The `Extension` arm
is `unimplemented!()` in the source. -/
def Protocol.on_proto_message (p : Protocol) (buf : Bytes) :
    Out (Option Event × Protocol) :=
  match WireMessage.from_buf buf with
  | .error e => .fatal e
  | .ok wm =>
    match Message.decode wm.typ wm.message with
    | .error e => .fatal e
    | .ok m =>
      match m with
      | .openMsg msg => p.on_open wm.channel msg
      | .closeMsg msg => .ok (none, p.on_close wm.channel msg)
      | .extensionMsg _ => .panicUnimpl
      | .appMsg t b =>
        match p.channels.forward wm.channel (.appMsg t b) with
        | .error e => .fatal e
        | .ok c2 => .ok (none, { p with channels := c2 })

/-- `on_handshake_message` (src/protocol.rs lines 326-348).  The encryption
upgrade (`upgrade_with_handshake`) is a pass-through in this model. -/
def Protocol.on_handshake_message (p : Protocol) (buf : Bytes) (hs : Handshake) :
    Out (Option Event × Protocol) :=
  match hs.read buf with
  | .error e => .fatal e
  | .ok (out, hs2) =>
    let q := match out with
      | some send => p.send_prefixed send
      | none => p
    if hs2.complete then
      match hs2.into_result with
      | .error e => .fatal e
      | .ok result =>
        let q2 := { q with handshake := some result, state := .Established }
        match q2.remote_key with
        | some k => .ok (some (Event.handshake k), q2)
        | none => .panicOther
    else
      .ok (none, { q with state := .Handshake (some hs2) })

/-- `on_message` (src/protocol.rs lines 314-324): dispatch on the state; the
handshake driver is taken out of the state while it runs, and the wildcard
arm (NotInitialized) is the source's panic. -/
def Protocol.on_message (p : Protocol) (buf : Bytes) : Out (Option Event × Protocol) :=
  match p.state with
  | .Handshake hso =>
    match hso with
    | some hs => Protocol.on_handshake_message { p with state := .Handshake none } buf hs
    | none => .panicOther
  | .Established => p.on_proto_message buf
  | .NotInitialized => .panicNotInit

/-- `send` (src/protocol.rs lines 460-465): encode as a wire frame and send
with a varint length prefix. -/
def Protocol.send (p : Protocol) (ch : Nat) (msg : Message) : Except ProtoError Protocol :=
  match msg.encodeWire ch with
  | .error e => .error e
  | .ok buf => .ok (p.send_prefixed buf)

/-- The `while let` drain of queued messages at the top of `next`
(src/protocol.rs lines 252-254). -/
def sendAll (p : Protocol) : List (Nat × Message) → Except ProtoError Protocol
  | [] => .ok p
  | (ch, m) :: rest =>
    match p.send ch m with
    | .error e => .error e
    | .ok p2 => sendAll p2 rest

/-- One input of the select loop in `next` (src/protocol.rs lines 268-294):
the keepalive timer elapsing, an inbound frame, an outbound message from a
channel, or a control command. -/
inductive LoopInput where
  | keepaliveElapsed
  | inbound (buf : Bytes)
  | outbound (ch : Nat) (msg : Message)
  | controlOpen (key : Bytes)
  deriving DecidableEq, Repr

/-- Result of one call to `next`.  `pending` is the suspended loop (input
list exhausted); the panic outcomes are as in `Out`. -/
inductive NextRes where
  | event (e : Event) (p : Protocol) (rest : List LoopInput)
  | fatal (e : ProtoError)
  | panicNotInit
  | panicUnimpl
  | panicOther
  | pending (p : Protocol)
  deriving DecidableEq, Repr

/-- The select loop of `next` (src/protocol.rs lines 268-299), driven by an
explicit list of loop inputs.  On keepalive elapse the ping is sent and the
timer recreated; an inbound frame is dispatched to `on_message` and its event,
if any, returned; outbound messages are sent; a control open runs `open`
(whose queued event is, as in the source, not returned inside the loop). -/
def Protocol.nextLoop (p : Protocol) : List LoopInput → NextRes
  | [] => .pending p
  | input :: rest =>
    match input with
    | .keepaliveElapsed => Protocol.nextLoop p.ping.reset_keepalive rest
    | .inbound buf =>
      match p.on_message buf with
      | .ok (some ev, p2) => .event ev p2 rest
      | .ok (none, p2) => Protocol.nextLoop p2 rest
      | .fatal e => .fatal e
      | .panicNotInit => .panicNotInit
      | .panicUnimpl => .panicUnimpl
      | .panicOther => .panicOther
    | .outbound ch msg =>
      match p.send ch msg with
      | .error e => .fatal e
      | .ok p2 => Protocol.nextLoop p2 rest
    | .controlOpen key =>
      match p.openChannel key with
      | .error e => .fatal e
      | .ok p2 => Protocol.nextLoop p2 rest

/-- The tail of `next` after initialization (src/protocol.rs lines 252-299):
flush the queued messages, return a pending event if any, otherwise run the
select loop. -/
def Protocol.nextReady (q : Protocol) (inputs : List LoopInput) : NextRes :=
  match sendAll { q with messages := [] } q.messages with
  | .error e => .fatal e
  | .ok q2 =>
    match q2.events with
    | ev :: restEvents => .event ev { q2 with events := restEvents } inputs
    | [] => Protocol.nextLoop q2 inputs

/-- `next` (src/protocol.rs lines 247-300): init if NotInitialized, then the
ready path.  The stored `error` field is — exactly as in the source — never
consulted. -/
def Protocol.next (p : Protocol) (inputs : List LoopInput) : NextRes :=
  match (match p.state with
         | .NotInitialized => p.init
         | _ => .ok p) with
  | .error e => .fatal e
  | .ok q => q.nextReady inputs

/-! ## Timer discipline of the select loop (for the keepalive claim)

The select loop keeps one `Delay` in the local variable `keepalive`
(src/protocol.rs lines 260-299).  The delay is created before the loop and is
replaced only in the keepalive arm, after `ping`; the inbound arm does not
touch it (the comment above the loop notwithstanding).  Projected onto
arrival times: given the absolute expiry time of the current delay and the
increasing arrival times of inbound frames, the keepalive arm fires as soon
as the delay expires no later than the next arrival. -/

/-- Time at which the loop sends its first ping, as the code behaves: the
pending delay is never replaced when an inbound frame arrives. -/
def firstPingTime (deadline : Nat) : List Nat → Nat
  | [] => deadline
  | a :: rest => if deadline ≤ a then deadline else firstPingTime deadline rest

/-- Modelled from the spec: the claimed behaviour, in which every inbound
frame resets the timer, so the delay expires `DEFAULT_KEEPALIVE` after the
last inbound frame. -/
def firstPingTimeSpec (deadline : Nat) : List Nat → Nat
  | [] => deadline
  | a :: rest =>
    if deadline ≤ a then deadline else firstPingTimeSpec (a + DEFAULT_KEEPALIVE) rest

/-! ## Sample states used by witnesses -/

/-- An established noise session with one pending event. -/
def sampleEstablished : Protocol :=
  { options := ⟨true, true, true⟩
    state := .Established
    handshake := some ⟨[82], [90]⟩
    channels := Channelizer.new
    error := none
    messages := []
    events := [Event.discoveryKey [9]]
    keepalive := some DEFAULT_KEEPALIVE
    sent := []
    outboundIds := [] }

/-- The session a noise = false build reaches right after `init`. -/
def sampleNoNoise : Protocol :=
  { options := ⟨true, false, false⟩
    state := .Established
    handshake := none
    channels := Channelizer.new
    error := none
    messages := []
    events := []
    keepalive := some DEFAULT_KEEPALIVE
    sent := []
    outboundIds := [] }

/-- A freshly built initiator with noise on. -/
def sampleNotInit : Protocol := Protocol.new ⟨true, true, true⟩

/-! ## Claim C1 -/

/-- Claim C1 (code_bug evidence).  The claim says a varint length prefix that
decodes to more than `MAX_MESSAGE_SIZE` makes `recv` fail with an oversized
frame error before any payload byte is read, and that `varint(70000)` fails
this way.  In the source the comparison against `MAX_MESSAGE_SIZE` sits after
the `byte < 128` break of the varint loop, so when the final varint byte
arrives the loop exits without the check: `varint(70000) = [240, 162, 4]` is
accepted and `recv` reads the full 70000-byte payload. -/
theorem c1_recv_accepts_oversized_frame (payload : Bytes)
    (hlen : payload.length = 70000) :
    encodeVarint 70000 = [240, 162, 4] ∧
    recv (240 :: 162 :: 4 :: payload) = .ok (payload, []) := by
  constructor
  · rw [encodeVarint_ge 70000 (by norm_num), encodeVarint_ge (70000 / 128) (by norm_num),
      encodeVarint_lt (70000 / 128 / 128) (by norm_num)]
  · have h1 : readVarint (240 :: 162 :: 4 :: payload) 0 1 = .ok (70000, payload) := by
      rw [readVarint_high 240 _ 0 1 (by norm_num) (by norm_num [MAX_MESSAGE_SIZE]),
        readVarint_high 162 _ _ _ (by norm_num) (by norm_num [MAX_MESSAGE_SIZE]),
        readVarint_low 4 _ _ _ (by norm_num) (by norm_num)]
    unfold recv
    rw [h1]
    dsimp only
    rw [if_neg (by omega), ← hlen, List.take_length, List.drop_length]

/-- Witness for the C1 evidence at a concrete 70000-byte payload.  The claim
says this input fails with an oversized-frame error before the payload is
read; instead `recv` succeeds and returns the payload. -/
theorem c1_recv_accepts_oversized_frame_witness :
    encodeVarint 70000 = [240, 162, 4] ∧
    recv (240 :: 162 :: 4 :: List.replicate 70000 7) =
      .ok (List.replicate 70000 7, []) :=
  c1_recv_accepts_oversized_frame (List.replicate 70000 7) (by rw [List.length_replicate])

/-! ## Claim C5 -/

/-- Claim C5 counterexample.  The claim quantifies over all `b` with
`|b| ≤ 65535`, but the empty payload encodes to the single zero byte, which
the receiver skips as a keepalive ping: decoding `with_delimiter []` does not
reproduce `[]`, it runs off the end of the input. -/
theorem c5_empty_payload_fails :
    with_delimiter ([] : Bytes) = [0] ∧
    recv (with_delimiter ([] : Bytes)) = .error .eof := by
  have h : with_delimiter ([] : Bytes) = [0] := by
    show encodeVarint (List.length ([] : Bytes)) ++ ([] : Bytes) = [0]
    rw [List.length_nil, encodeVarint_lt 0 (by norm_num), List.append_nil]
  exact ⟨h, by rw [h]; rfl⟩

/-- Claim C5 as amended: for every byte sequence `b` with `1 ≤ |b| ≤ 65535`,
encoding `b` with `with_delimiter` and decoding with `recv` reproduces
exactly `b`. -/
theorem c5_roundtrip (b : Bytes) (h1 : 1 ≤ b.length)
    (h2 : b.length ≤ MAX_MESSAGE_SIZE) :
    recv (with_delimiter b) = .ok (b, []) := by
  have h := recv_with_delimiter b [] h1 h2
  simpa using h

/-- Witness for the amended C5 at the concrete payload `[42]`. -/
theorem c5_roundtrip_witness :
    1 ≤ ([42] : Bytes).length ∧ ([42] : Bytes).length ≤ MAX_MESSAGE_SIZE ∧
    recv (with_delimiter [42]) = .ok ([42], []) :=
  ⟨by decide, by decide, c5_roundtrip [42] (by decide) (by decide)⟩

/-! ## Claim C6 -/

/-- Receiving `n` frames of a zero-interleaved stream observes exactly the
frames, in order. -/
theorem recvN_interleaved (pairs : List (Nat × Bytes))
    (h : ∀ q ∈ pairs, 1 ≤ q.2.length ∧ q.2.length ≤ MAX_MESSAGE_SIZE) :
    recvN pairs.length (interleaved pairs) = .ok (pairs.map Prod.snd, []) := by
  induction pairs with
  | nil => rfl
  | cons hd tl ih =>
    obtain ⟨z, b⟩ := hd
    have hb := h (z, b) (List.mem_cons_self _ _)
    have htl : ∀ q ∈ tl, 1 ≤ q.2.length ∧ q.2.length ≤ MAX_MESSAGE_SIZE :=
      fun q hq => h q (List.mem_cons_of_mem _ hq)
    show recvN (tl.length + 1) (List.replicate z 0 ++ (with_delimiter b ++ interleaved tl))
      = .ok (b :: tl.map Prod.snd, [])
    simp only [recvN]
    rw [recv_skip_zeros, recv_with_delimiter b _ hb.1 hb.2]
    dsimp only
    rw [ih htl]

/-- Claim C6: interleaving single zero keepalive bytes between well-formed
frames is transparent — the receiver observes exactly the frames in order,
with no error raised for the zero bytes — and the sender's ping is a single
zero byte. -/
theorem c6_keepalive_transparency (pairs : List (Nat × Bytes))
    (h : ∀ q ∈ pairs, 1 ≤ q.2.length ∧ q.2.length ≤ MAX_MESSAGE_SIZE) :
    recvN pairs.length (interleaved pairs) = .ok (pairs.map Prod.snd, []) ∧
    ∀ p : Protocol, p.ping.sent = p.sent ++ [0] :=
  ⟨recvN_interleaved pairs h, fun _ => rfl⟩

/-- Witness for C6 at a concrete two-frame stream with pings interleaved. -/
theorem c6_keepalive_transparency_witness :
    recvN 2 (interleaved [(3, [5]), (1, [6, 7])]) = .ok ([[5], [6, 7]], []) ∧
    ∀ p : Protocol, p.ping.sent = p.sent ++ [0] :=
  c6_keepalive_transparency [(3, [5]), (1, [6, 7])] (by decide)

/-! ## Claim C9 -/

/-- Claim C9 (code_bug evidence).  On keepalive elapse the loop does send a
single zero byte and rearm the timer (first conjunct).  But the pending delay
is never replaced when an inbound frame arrives — contrary to the claim and
to the comment above the source's select loop — so with the timer armed at
deadline 25 and one inbound frame at time 10, the code pings at 25 while the
claimed behaviour pings at 35. -/
theorem c9_keepalive_timer_not_reset :
    (∀ (p : Protocol) (rest : List LoopInput),
      p.nextLoop (.keepaliveElapsed :: rest)
        = Protocol.nextLoop
            { p with sent := p.sent ++ [0], keepalive := some DEFAULT_KEEPALIVE } rest) ∧
    firstPingTime DEFAULT_KEEPALIVE [10] = 25 ∧
    firstPingTimeSpec DEFAULT_KEEPALIVE [10] = 35 :=
  ⟨fun _ _ => rfl, by decide, by decide⟩

/-! ## Claim C2 -/

/-- Claim C2 (code_bug evidence).  `destroy` only stores the error in the
`error` field (first conjunct), and no code in src/protocol.rs ever reads
that field: calling `next` after `destroy` proceeds as if nothing happened —
here it returns the queued event instead of the stored error. -/
theorem c2_destroy_error_ignored :
    (∀ (p : Protocol) (e : ProtoError), p.destroy e = { p with error := some e }) ∧
    (sampleEstablished.destroy .brokenPipe).next []
      = .event (Event.discoveryKey [9])
          { sampleEstablished with error := some .brokenPipe, events := [] } [] :=
  ⟨fun _ _ => rfl, rfl⟩

/-! ## Claim C3 -/

/-- Claim C3 counterexample.  In the session a noise = false build reaches
right after `init` (first conjunct shows it is reachable), the capability is
indeed `None`, but `verify_remote_capability` is not a succeeding no-op: it
returns PermissionDenied, both for a present and for an absent inbound
capability. -/
theorem c3_verify_not_noop :
    (Protocol.new ⟨true, false, false⟩).init = .ok sampleNoNoise ∧
    sampleNoNoise.capability [3] = none ∧
    sampleNoNoise.verify_remote_capability (some [1, 2]) [3] = .error .permissionDenied ∧
    sampleNoNoise.verify_remote_capability none [3] = .error .permissionDenied :=
  ⟨rfl, rfl, rfl, rfl⟩

/-- Claim C3 as amended: in a session whose handshake state was never set (as
in every noise = false session), the capability attached to a locally-sent
Open is None, but capability verification of an inbound Open is not a no-op:
it returns the PermissionDenied error "Missing handshake state for capability
verification". -/
theorem c3_amended_no_handshake (p : Protocol) (h : p.handshake = none)
    (key : Bytes) (c : Option Bytes) :
    p.capability key = none ∧
    p.verify_remote_capability c key = .error .permissionDenied := by
  unfold Protocol.capability Protocol.verify_remote_capability
  rw [h]
  exact ⟨rfl, rfl⟩

/-- Witness for the amended C3 at the post-init noise = false session. -/
theorem c3_amended_no_handshake_witness :
    sampleNoNoise.capability [4] = none ∧
    sampleNoNoise.verify_remote_capability (some [7]) [4] = .error .permissionDenied :=
  c3_amended_no_handshake sampleNoNoise rfl [4] (some [7])

/-! ## Claim C4 -/

/-- Plain LEB128 decoding inverts the encoding, for any accumulator. -/
theorem decodeVarint_encodeVarint (n : Nat) (rest : Bytes) :
    ∀ acc factor, decodeVarint (encodeVarint n ++ rest) acc factor
      = some (acc + n * factor, rest) := by
  induction n using Nat.strong_induction_on with
  | _ n ih =>
    intro acc factor
    by_cases h : n < 128
    · rw [encodeVarint_lt n h, List.cons_append, List.nil_append]
      simp only [decodeVarint]
      rw [if_pos h]
      have hm : n % 128 = n := Nat.mod_eq_of_lt h
      rw [hm]
    · rw [encodeVarint_ge n (by omega), List.cons_append]
      simp only [decodeVarint]
      rw [if_neg (by omega)]
      rw [ih (n / 128) (Nat.div_lt_self (by omega) (by omega)) _ _]
      have hm : (n % 128 + 128) % 128 = n % 128 := by omega
      rw [hm]
      have e : n % 128 + 128 * (n / 128) = n := Nat.mod_add_div n 128
      have : acc + n % 128 * factor + n / 128 * (factor * 128) = acc + n * factor := by
        calc acc + n % 128 * factor + n / 128 * (factor * 128)
            = acc + (n % 128 + 128 * (n / 128)) * factor := by ring
          _ = acc + n * factor := by rw [e]
      rw [this]

/-- Claim C4 (code_bug evidence).  Any well-formed data frame whose 4-bit
type tag is 15 decodes as an Extension message, and the receiver's match arm
for it is `unimplemented!()`: processing such a frame panics instead of
ignoring the frame as the spec prescribes. -/
theorem c4_extension_frame_panics (p : Protocol) (ch : Nat) (body : Bytes) :
    p.on_proto_message (encodeVarint (ch * 16 + 15) ++ body) = .panicUnimpl := by
  have hdr : decodeVarint (encodeVarint (ch * 16 + 15) ++ body) 0 1
      = some (0 + (ch * 16 + 15) * 1, body) := decodeVarint_encodeVarint _ _ 0 1
  unfold Protocol.on_proto_message WireMessage.from_buf
  rw [hdr]
  dsimp only
  have ht : (0 + (ch * 16 + 15) * 1) % 16 = 15 := by omega
  rw [ht]
  simp [Message.decode]

/-! ## Claim C8 -/

/-- Characterization of `init`, shared by several proofs below. -/
theorem init_characterization (p : Protocol) :
    (p.state ≠ State.NotInitialized → p.init = .ok p) ∧
    (p.state = State.NotInitialized →
      (p.options.noise = true →
        p.init = .ok { p with
          state := .Handshake (some (Handshake.new p.options.is_initiator))
          keepalive := some DEFAULT_KEEPALIVE
          sent := p.sent ++
            (if p.options.is_initiator then with_delimiter (flightBytes 1) else []) }) ∧
      (p.options.noise = false →
        p.init = .ok { p with
          state := .Established
          keepalive := some DEFAULT_KEEPALIVE })) := by
  constructor
  · intro hne
    unfold Protocol.init
    cases hst : p.state with
    | NotInitialized => exact absurd hst hne
    | Handshake h => rfl
    | Established => rfl
  · intro hst
    constructor
    · intro hnoise
      unfold Protocol.init
      rw [hst]
      dsimp only
      rw [hnoise]
      cases hinit : p.options.is_initiator with
      | true => rfl
      | false =>
        rw [if_neg (by simp : ¬ false = true), List.append_nil]
        rfl
    · intro hnoise
      unfold Protocol.init
      rw [hst]
      dsimp only
      rw [hnoise]
      rfl

/-- Claim C8: `init` is idempotent — in any state other than NotInitialized
it returns Ok and changes nothing at all — and from NotInitialized it moves
to Handshake when noise is on (only the initiator producing the first-flight
output) or directly to Established when noise is off, arming the keepalive
timer in both cases. -/
theorem c8_init_spec (p : Protocol) :
    (p.state ≠ State.NotInitialized → p.init = .ok p) ∧
    (p.state = State.NotInitialized →
      (p.options.noise = true →
        p.init = .ok { p with
          state := .Handshake (some (Handshake.new p.options.is_initiator))
          keepalive := some DEFAULT_KEEPALIVE
          sent := p.sent ++
            (if p.options.is_initiator then with_delimiter (flightBytes 1) else []) }) ∧
      (p.options.noise = false →
        p.init = .ok { p with
          state := .Established
          keepalive := some DEFAULT_KEEPALIVE })) :=
  init_characterization p

/-- Witness for C8: a freshly built initiator transitions to Handshake and
sends the prefixed first flight; an established session is left untouched. -/
theorem c8_init_spec_witness :
    sampleEstablished.init = .ok sampleEstablished ∧
    sampleNotInit.init = .ok { sampleNotInit with
      state := .Handshake (some (Handshake.new true))
      keepalive := some DEFAULT_KEEPALIVE
      sent := [] ++ (if true then with_delimiter (flightBytes 1) else []) } :=
  ⟨(c8_init_spec sampleEstablished).1 (by decide),
   ((c8_init_spec sampleNotInit).2 rfl).1 rfl⟩

/-! ## Claim C10

State-preservation lemmas: none of the loop operations can put the engine
back into NotInitialized, and `on_message` can only hit the NotInitialized
panic when called in that state — which `next` rules out by running `init`
first. -/

theorem send_state (p : Protocol) (ch : Nat) (m : Message) (p2 : Protocol)
    (h : p.send ch m = .ok p2) : p2.state = p.state := by
  unfold Protocol.send at h
  split at h
  · exact absurd h (by simp)
  · simp only [Except.ok.injEq] at h
    subst h
    rfl

theorem sendAll_state (l : List (Nat × Message)) :
    ∀ p p2 : Protocol, sendAll p l = .ok p2 → p2.state = p.state := by
  induction l with
  | nil =>
    intro p p2 h
    simp only [sendAll, Except.ok.injEq] at h
    subst h
    rfl
  | cons hd tl ih =>
    intro p p2 h
    obtain ⟨ch, m⟩ := hd
    simp only [sendAll] at h
    split at h
    · exact absurd h (by simp)
    · rename_i p3 heq
      exact (ih p3 p2 h).trans (send_state p ch m p3 heq)

theorem openChannel_state (p : Protocol) (key : Bytes) (p2 : Protocol)
    (h : p.openChannel key = .ok p2) : p2.state = p.state := by
  simp only [Protocol.openChannel] at h
  repeat' split at h
  all_goals try (exfalso; simp at h; done)
  all_goals (simp only [Except.ok.injEq] at h; subst h; rfl)

theorem on_close_state (p : Protocol) (ch : Nat) (m : Close) :
    (p.on_close ch m).state = p.state := by
  unfold Protocol.on_close
  repeat' split
  all_goals rfl

theorem on_open_state (p : Protocol) (ch : Nat) (m : Open) (x : Option Event)
    (p2 : Protocol) (h : p.on_open ch m = .ok (x, p2)) : p2.state = p.state := by
  simp only [Protocol.on_open] at h
  repeat' split at h
  all_goals try (exfalso; simp at h; done)
  all_goals (simp only [Out.ok.injEq, Prod.mk.injEq] at h; obtain ⟨h1, h2⟩ := h; subst h2; rfl)

theorem on_proto_message_state (p : Protocol) (buf : Bytes) (x : Option Event)
    (p2 : Protocol) (h : p.on_proto_message buf = .ok (x, p2)) : p2.state = p.state := by
  simp only [Protocol.on_proto_message] at h
  repeat' split at h
  all_goals try (exfalso; simp at h; done)
  all_goals try (exact on_open_state _ _ _ _ _ h)
  all_goals try (simp only [Out.ok.injEq, Prod.mk.injEq] at h; obtain ⟨h1, h2⟩ := h; subst h2; rfl)
  all_goals (simp only [Out.ok.injEq, Prod.mk.injEq] at h; obtain ⟨h1, h2⟩ := h; subst h2; exact on_close_state _ _ _)

theorem on_handshake_message_state (p : Protocol) (buf : Bytes) (hs : Handshake)
    (x : Option Event) (p2 : Protocol)
    (h : p.on_handshake_message buf hs = .ok (x, p2)) :
    p2.state ≠ State.NotInitialized := by
  simp only [Protocol.on_handshake_message] at h
  repeat' split at h
  all_goals try (exfalso; simp at h; done)
  all_goals (simp only [Out.ok.injEq, Prod.mk.injEq] at h; obtain ⟨h1, h2⟩ := h; subst h2; simp)

theorem on_handshake_message_no_panicNotInit (p : Protocol) (buf : Bytes) (hs : Handshake) :
    p.on_handshake_message buf hs ≠ Out.panicNotInit := by
  simp only [Protocol.on_handshake_message]
  repeat' split
  all_goals simp

theorem on_open_no_panicNotInit (p : Protocol) (ch : Nat) (m : Open) :
    p.on_open ch m ≠ Out.panicNotInit := by
  simp only [Protocol.on_open]
  repeat' split
  all_goals simp

theorem on_proto_message_no_panicNotInit (p : Protocol) (buf : Bytes) :
    p.on_proto_message buf ≠ Out.panicNotInit := by
  simp only [Protocol.on_proto_message]
  repeat' split
  all_goals try (simp; done)
  all_goals exact on_open_no_panicNotInit _ _ _

theorem on_message_no_panicNotInit (p : Protocol) (buf : Bytes)
    (hp : p.state ≠ State.NotInitialized) :
    p.on_message buf ≠ Out.panicNotInit := by
  unfold Protocol.on_message
  cases hst : p.state with
  | NotInitialized => exact absurd hst hp
  | Handshake hso =>
    cases hso with
    | none => simp
    | some hs => exact on_handshake_message_no_panicNotInit _ _ _
  | Established => exact on_proto_message_no_panicNotInit _ _

theorem on_message_ok_state (p : Protocol) (buf : Bytes) (x : Option Event)
    (p2 : Protocol) (h : p.on_message buf = .ok (x, p2)) :
    p2.state ≠ State.NotInitialized := by
  unfold Protocol.on_message at h
  cases hst : p.state with
  | NotInitialized => rw [hst] at h; exact absurd h (by simp)
  | Handshake hso =>
    rw [hst] at h
    cases hso with
    | none => exact absurd h (by simp)
    | some hs => exact on_handshake_message_state _ _ _ _ _ h
  | Established =>
    rw [hst] at h
    rw [on_proto_message_state p buf x p2 h, hst]
    simp

theorem init_state_not_notinit (p q : Protocol) (h : p.init = .ok q)
    (hs : p.state = State.NotInitialized) : q.state ≠ State.NotInitialized := by
  cases hn : p.options.noise with
  | true =>
    have hc := ((init_characterization p).2 hs).1 hn
    rw [hc] at h
    simp only [Except.ok.injEq] at h
    subst h
    simp
  | false =>
    have hc := ((init_characterization p).2 hs).2 hn
    rw [hc] at h
    simp only [Except.ok.injEq] at h
    subst h
    simp

theorem nextLoop_no_panicNotInit (inputs : List LoopInput) :
    ∀ p : Protocol, p.state ≠ State.NotInitialized →
      p.nextLoop inputs ≠ NextRes.panicNotInit := by
  induction inputs with
  | nil =>
    intro p hp
    simp [Protocol.nextLoop]
  | cons i rest ih =>
    intro p hp
    cases i with
    | keepaliveElapsed => exact ih p.ping.reset_keepalive hp
    | inbound buf =>
      simp only [Protocol.nextLoop]
      cases hm : p.on_message buf with
      | ok a =>
        obtain ⟨x, p2⟩ := a
        cases x with
        | some ev => simp
        | none => exact ih p2 (on_message_ok_state p buf none p2 hm)
      | fatal e => simp
      | panicNotInit => exact absurd hm (on_message_no_panicNotInit p buf hp)
      | panicUnimpl => simp
      | panicOther => simp
    | outbound ch msg =>
      simp only [Protocol.nextLoop]
      cases hs : p.send ch msg with
      | error e => simp
      | ok p2 =>
        refine ih p2 ?_
        rw [send_state p ch msg p2 hs]
        exact hp
    | controlOpen key =>
      simp only [Protocol.nextLoop]
      cases ho : p.openChannel key with
      | error e => simp
      | ok p2 =>
        refine ih p2 ?_
        rw [openChannel_state p key p2 ho]
        exact hp

theorem nextReady_no_panicNotInit (q : Protocol) (inputs : List LoopInput)
    (hq : q.state ≠ State.NotInitialized) :
    q.nextReady inputs ≠ NextRes.panicNotInit := by
  unfold Protocol.nextReady
  split
  · simp
  · rename_i q2 hsa
    split
    · simp
    · refine nextLoop_no_panicNotInit inputs q2 ?_
      rw [sendAll_state q.messages { q with messages := [] } q2 hsa]
      exact hq

/-! ## Claim C7 -/

def recRemoteId (o : Option ChannelRecord) : Option Nat :=
  match o with
  | some r => r.remote_id
  | none => none

def recRemoteCap (o : Option ChannelRecord) : Option Bytes :=
  match o with
  | some r => r.remote_capability
  | none => none

def recInbound (o : Option ChannelRecord) : Option (List Message) :=
  match o with
  | some r => r.inbound
  | none => none

theorem get_put_same (c : Channelizer) (dk : Bytes) (r : ChannelRecord) :
    (c.put dk r).get dk = some r := by
  simp [Channelizer.get, Channelizer.put, lookupRec]

/-- `attach_local` leaves a record at the discovery key that has the key, the
returned local id, and whatever remote data was stored before. -/
theorem attach_local_get (c : Channelizer) (key : Bytes) :
    (c.attach_local key).2.get (discovery_key key)
      = some ⟨some key, some (c.attach_local key).1,
          recRemoteId (c.get (discovery_key key)),
          recRemoteCap (c.get (discovery_key key)),
          recInbound (c.get (discovery_key key))⟩ := by
  simp only [Channelizer.attach_local]
  split
  · rename_i r heq
    rw [heq]
    split
    · rename_i id hl
      dsimp only
      rw [get_put_same]
      dsimp only [recRemoteId, recRemoteCap, recInbound]
      rw [← hl]
    · rename_i hl
      dsimp only
      simp only [recRemoteId, recRemoteCap, recInbound]
      exact get_put_same _ _ _
  · rename_i heq
    rw [heq]
    dsimp only
    simp only [recRemoteId, recRemoteCap, recInbound]
    exact get_put_same _ _ _

theorem openInbound_get (c : Channelizer) (dk : Bytes) (r : ChannelRecord)
    (h : c.get dk = some r) :
    (c.openInbound dk).get dk = some { r with inbound := some [] } := by
  unfold Channelizer.openInbound
  rw [h]
  exact get_put_same _ _ _

theorem remoteAnnounced_eq (c : Channelizer) (dk : Bytes) :
    remoteAnnounced c dk = (recRemoteId (c.get dk)).isSome := by
  unfold remoteAnnounced recRemoteId
  cases c.get dk <;> rfl

theorem verify_channels_irrel (p : Protocol) (c : Channelizer) (cap : Option Bytes)
    (key : Bytes) :
    Protocol.verify_remote_capability { p with channels := c } cap key
      = p.verify_remote_capability cap key := rfl

/-- Claim C7: a successful `open(key)` leaves a record with a local id for
`dkey(key)`, queues exactly one `Open { dkey(key), capability }` message for
sending, and emits a `Channel` event carrying `dkey(key)` — after verifying
the stored remote capability — precisely when the remote had already
announced `dkey(key)`. -/
theorem c7_open_spec (p : Protocol) (key : Bytes) (p2 : Protocol)
    (h : p.openChannel key = .ok p2) :
    (∃ r, p2.channels.get (discovery_key key) = some r ∧
        r.local_id = some (p.channels.attach_local key).1) ∧
    p2.messages = p.messages ++
      [((p.channels.attach_local key).1,
        Message.openMsg ⟨discovery_key key, p.capability key⟩)] ∧
    (remoteAnnounced p.channels (discovery_key key) = true →
      p2.events = p.events ++ [Event.channel ⟨discovery_key key⟩] ∧
      p.verify_remote_capability
        (recRemoteCap (p.channels.get (discovery_key key))) key = .ok ()) ∧
    (remoteAnnounced p.channels (discovery_key key) = false →
      p2.events = p.events) := by
  simp only [Protocol.openChannel] at h
  rw [attach_local_get] at h
  dsimp only at h
  split at h
  · rename_i rid hrem
    split at h
    · simp at h
    · rename_i u hv
      rw [verify_channels_irrel] at hv
      simp only [Except.ok.injEq] at h
      subst h
      refine ⟨⟨_, openInbound_get _ _ _ (attach_local_get p.channels key), rfl⟩, rfl, ?_, ?_⟩
      · intro _
        exact ⟨rfl, hv⟩
      · intro hFalse
        rw [remoteAnnounced_eq, hrem] at hFalse
        simp at hFalse
  · rename_i hrem
    simp only [Except.ok.injEq] at h
    subst h
    refine ⟨⟨_, attach_local_get p.channels key, rfl⟩, rfl, ?_, ?_⟩
    · intro hAnn
      rw [remoteAnnounced_eq, hrem] at hAnn
      simp at hAnn
    · intro _
      rfl

/-- Key and pre-state used by the C7 witness: the remote has already
announced the discovery key with a valid capability. -/
def sampleKey : Bytes := [3]

def sampleOpenPre : Protocol :=
  { options := ⟨true, true, true⟩
    state := .Established
    handshake := some ⟨[82], [90]⟩
    channels :=
      { table := [(discovery_key sampleKey,
          ⟨none, none, some 0, some (mac [90] sampleKey), none⟩)]
        next_local := 0 }
    error := none
    messages := []
    events := []
    keepalive := some DEFAULT_KEEPALIVE
    sent := []
    outboundIds := [] }

def sampleOpenPost : Protocol :=
  match sampleOpenPre.openChannel sampleKey with
  | .ok q => q
  | .error _ => sampleOpenPre

/-- Witness for C7: the concrete local open against an announced remote. -/
theorem c7_open_spec_witness :
    (∃ r, sampleOpenPost.channels.get (discovery_key sampleKey) = some r ∧
        r.local_id = some (sampleOpenPre.channels.attach_local sampleKey).1) ∧
    sampleOpenPost.messages = sampleOpenPre.messages ++
      [((sampleOpenPre.channels.attach_local sampleKey).1,
        Message.openMsg ⟨discovery_key sampleKey, sampleOpenPre.capability sampleKey⟩)] ∧
    (remoteAnnounced sampleOpenPre.channels (discovery_key sampleKey) = true →
      sampleOpenPost.events
          = sampleOpenPre.events ++ [Event.channel ⟨discovery_key sampleKey⟩] ∧
      sampleOpenPre.verify_remote_capability
        (recRemoteCap (sampleOpenPre.channels.get (discovery_key sampleKey)))
        sampleKey = .ok ()) ∧
    (remoteAnnounced sampleOpenPre.channels (discovery_key sampleKey) = false →
      sampleOpenPost.events = sampleOpenPre.events) :=
  c7_open_spec sampleOpenPre sampleKey sampleOpenPost (by rfl)

/-- Claim C10: `next` runs `init` before waiting on inbound data whenever
the protocol is NotInitialized, so through the public interface no inbound
message is ever processed in that state: the panic branch of `on_message`
("cannot receive messages before starting the protocol") is unreachable from
`next`, whatever the state and whatever inputs the loop consumes. -/
theorem c10_notinit_panic_unreachable (p : Protocol) (inputs : List LoopInput) :
    p.next inputs ≠ NextRes.panicNotInit := by
  cases hst : p.state with
  | NotInitialized =>
    unfold Protocol.next
    rw [hst]
    show (match p.init with
          | .error e => NextRes.fatal e
          | .ok q => q.nextReady inputs) ≠ NextRes.panicNotInit
    split
    · simp
    · rename_i q hi
      exact nextReady_no_panicNotInit q inputs (init_state_not_notinit p q hi hst)
  | Handshake hso =>
    unfold Protocol.next
    rw [hst]
    show p.nextReady inputs ≠ NextRes.panicNotInit
    exact nextReady_no_panicNotInit p inputs (by rw [hst]; simp)
  | Established =>
    unfold Protocol.next
    rw [hst]
    show p.nextReady inputs ≠ NextRes.panicNotInit
    exact nextReady_no_panicNotInit p inputs (by rw [hst]; simp)

end Hypercore

